import Mathlib

/-
Verification development for the EN→JA `.ast` porter
(`port_en_to_jp_3.py`).  The Python source is shallowly embedded over
`List Char` buffers: every scanning loop of the source becomes a
fuel-indexed structural recursion (fuel is always supplied large enough
that it never runs out before the source loop's own exit condition, so
the embedding computes exactly what the Python loop computes), regex
searches become explicit character-level matchers for the five concrete
patterns used by the source, and the `dict` structures become
association lists with Python's insertion-order/overwrite semantics.
-/

/-- Python slice `l[a:b]` for `0 ≤ a ≤ b` (both ends clamped to the list). -/
def listSlice (l : List Char) (a b : Nat) : List Char :=
  (l.take b).drop a

/-- The loop body of `ASTProcessor.find_matching_brace` (source lines 35-47):
depth counter scan with single-character-lookback escape skipping.  `fuel`
only bounds the recursion; each iteration advances `i` by one, exactly as
the Python `while` loop does, so `fuel = text.length` makes the `0` case
unreachable while the loop condition still holds. -/
def fmbLoop (text : List Char) : Nat → Nat → Nat → Int
  | 0, i, depth => if depth = 0 then (i : Int) else -1
  | fuel + 1, i, depth =>
    if i < text.length ∧ 0 < depth then
      if 0 < i ∧ text.getD (i - 1) ' ' = '\\' then
        fmbLoop text fuel (i + 1) depth
      else if text.getD i ' ' = '\x7b' then
        fmbLoop text fuel (i + 1) (depth + 1)
      else if text.getD i ' ' = '\x7d' then
        fmbLoop text fuel (i + 1) (depth - 1)
      else
        fmbLoop text fuel (i + 1) depth
    else if depth = 0 then (i : Int) else -1

/-- `ASTProcessor.find_matching_brace` (source lines 30-48): returns the index
one past the matching closing brace, or `-1` on a non-brace start or
unbalanced input. -/
def find_matching_brace (text : List Char) (start_idx : Nat) : Int :=
  if start_idx < text.length ∧ text.getD start_idx ' ' = '\x7b' then
    fmbLoop text text.length (start_idx + 1) 1
  else
    -1

lemma fmbLoop_depth_zero (text : List Char) (fuel i : Nat) :
    fmbLoop text fuel i 0 = (i : Int) := by
  cases fuel <;> simp [fmbLoop]

lemma fmbLoop_success (text : List Char) :
    ∀ fuel i depth, 0 < depth → fmbLoop text fuel i depth ≠ -1 →
      ∃ e : Nat, fmbLoop text fuel i depth = (e : Int) ∧ i < e ∧
        e ≤ text.length ∧ text.getD (e - 1) ' ' = '\x7d' := by
  intro fuel
  induction fuel with
  | zero =>
    intro i depth hd h
    simp only [fmbLoop] at h
    omega
  | succ fuel ih =>
    intro i depth hd h
    simp only [fmbLoop] at h ⊢
    by_cases hc : i < text.length ∧ 0 < depth
    · simp only [if_pos hc] at h ⊢
      by_cases hesc : 0 < i ∧ text.getD (i - 1) ' ' = '\\'
      · simp only [if_pos hesc] at h ⊢
        obtain ⟨e, he, hlt, hle, hch⟩ := ih (i + 1) depth hd h
        exact ⟨e, he, by omega, hle, hch⟩
      · simp only [if_neg hesc] at h ⊢
        by_cases hopen : text.getD i ' ' = '\x7b'
        · simp only [if_pos hopen] at h ⊢
          obtain ⟨e, he, hlt, hle, hch⟩ := ih (i + 1) (depth + 1) (by omega) h
          exact ⟨e, he, by omega, hle, hch⟩
        · simp only [if_neg hopen] at h ⊢
          by_cases hclose : text.getD i ' ' = '\x7d'
          · simp only [if_pos hclose] at h ⊢
            by_cases hone : depth = 1
            · subst hone
              simp only [Nat.sub_self] at h ⊢
              rw [fmbLoop_depth_zero]
              exact ⟨i + 1, rfl, by omega, by omega, by simpa using hclose⟩
            · obtain ⟨e, he, hlt, hle, hch⟩ := ih (i + 1) (depth - 1) (by omega) h
              exact ⟨e, he, by omega, hle, hch⟩
          · simp only [if_neg hclose] at h ⊢
            obtain ⟨e, he, hlt, hle, hch⟩ := ih (i + 1) depth hd h
            exact ⟨e, he, by omega, hle, hch⟩
    · simp only [if_neg hc] at h
      rw [if_neg (by omega)] at h
      exact absurd rfl h

lemma find_matching_brace_success (text : List Char) (s : Nat)
    (h : find_matching_brace text s ≠ -1) :
    ∃ e : Nat, find_matching_brace text s = (e : Int) ∧ s < e ∧
      e ≤ text.length ∧ text.getD (e - 1) ' ' = '\x7d' := by
  unfold find_matching_brace at h ⊢
  by_cases hc : s < text.length ∧ text.getD s ' ' = '\x7b'
  · simp only [if_pos hc] at h ⊢
    obtain ⟨e, he, hlt, hle, hch⟩ := fmbLoop_success text text.length (s + 1) 1 (by omega) h
    exact ⟨e, he, by omega, hle, hch⟩
  · simp only [if_neg hc] at h
    exact absurd rfl h

/-- Claim C3: `find_matching_brace` is total and never yields an out-of-range
offset: for every buffer and start index it either returns `-1` or an index
`e` with `start_idx < e ≤ length` whose predecessor character is the closing
brace; a start position not holding `{` always fails; and the concrete
unbalanced input `{ a { b }` (one unescaped extra `{`) yields `-1`. -/
theorem claim3_match_brace_safe :
    (∀ text : List Char, ∀ s : Nat, find_matching_brace text s = -1 ∨
      ∃ e : Nat, find_matching_brace text s = (e : Int) ∧ s < e ∧
        e ≤ text.length ∧ text.getD (e - 1) ' ' = '\x7d') ∧
    (∀ text : List Char, ∀ s : Nat,
      text.getD s ' ' = '\x7b' ∨ find_matching_brace text s = -1) ∧
    find_matching_brace (("\x7b a \x7b b \x7d").toList) 0 = -1 := by
  refine ⟨?_, ?_, by decide⟩
  · intro text s
    by_cases h : find_matching_brace text s = -1
    · exact Or.inl h
    · exact Or.inr (find_matching_brace_success text s h)
  · intro text s
    by_cases h : text.getD s ' ' = '\x7b'
    · exact Or.inl h
    · refine Or.inr ?_
      unfold find_matching_brace
      rw [if_neg (by tauto)]

/-- Claim C4 counterexample: the claim asserts that in the three-character
sequence backslash-backslash-brace the brace IS counted toward depth, which
on the buffer `{\\{}}` would require a second closing brace (result `6`).
The code's single-character lookback also skips that brace, so the first
`}` already closes the outer brace and the result is `5`. -/
theorem claim4_counterexample :
    find_matching_brace (("\x7b\\\\\x7b\x7d\x7d").toList) 0 = 5 ∧
    find_matching_brace (("\x7b\\\\\x7b\x7d\x7d").toList) 0 ≠ 6 := by
  decide

/-- Claim C4 (amended): escape handling is a single-character lookback with no
run awareness: any character immediately preceded by a backslash is skipped as
literal, so the brace in backslash-brace is not counted and the brace in
backslash-backslash-brace is ALSO not counted (`{\{}}` matches at `4`,
`{\\{}}` matches at `5`). -/
theorem claim4_escape_lookback :
    (∀ (text : List Char) (fuel i depth : Nat), i < text.length → 0 < depth →
      0 < i → text.getD (i - 1) ' ' = '\\' →
      fmbLoop text (fuel + 1) i depth = fmbLoop text fuel (i + 1) depth) ∧
    find_matching_brace (("\x7b\\\x7b\x7d\x7d").toList) 0 = 4 ∧
    find_matching_brace (("\x7b\\\\\x7b\x7d\x7d").toList) 0 = 5 := by
  refine ⟨?_, by decide, by decide⟩
  intro text fuel i depth h1 h2 h3 h4
  simp only [fmbLoop, if_pos (And.intro h1 h2), if_pos (And.intro h3 h4)]

/-- Claim C4 witness: the skip rule of the amended claim applied at a concrete
buffer, position and depth. -/
theorem claim4_escape_lookback_witness :
    (("a\\b").toList.getD 1 ' ' = '\\') ∧
    fmbLoop (("a\\b").toList) 6 2 1 = fmbLoop (("a\\b").toList) 5 3 1 :=
  ⟨by decide, claim4_escape_lookback.1 (("a\\b").toList) 5 2 1 (by decide)
    (by decide) (by decide) (by decide)⟩

/-- ASCII whitespace matched by the regex class in the source's patterns. -/
def isPySpace (c : Char) : Bool :=
  c == ' ' || c == '\t' || c == '\n' || c == '\r' || c == '\x0b' || c == '\x0c'

/-- Length of the maximal whitespace run starting at `p`. -/
def spacesLen (content : List Char) (p : Nat) : Nat :=
  ((content.drop p).takeWhile isPySpace).length

/-- The maximal digit run starting at `p`. -/
def digitsRun (content : List Char) (p : Nat) : List Char :=
  (content.drop p).takeWhile Char.isDigit

/-- Decimal value of a digit run (what `int(...)` yields on the group). -/
def digitsVal (ds : List Char) : Nat :=
  ds.foldl (fun n c => n * 10 + (c.toNat - 48)) 0

/-- Case-insensitive literal match at position `p` (the source compiles all
its header patterns with `re.IGNORECASE`). -/
def matchLit (content : List Char) (p : Nat) (lit : List Char) : Bool :=
  ((content.drop p).take lit.length).map Char.toLower == lit

/-- Matcher for the pattern `<kw>\s*=\s*\{` anchored at `p`; on success
returns the index one past the opening brace (the regex match end). -/
def matchKeyBraceAt (kw : List Char) (content : List Char) (p : Nat) : Option Nat :=
  if matchLit content p kw then
    let p3 := p + kw.length + spacesLen content (p + kw.length)
    if content.getD p3 ' ' = '=' then
      let p4 := p3 + 1 + spacesLen content (p3 + 1)
      if content.getD p4 ' ' = '\x7b' then some (p4 + 1) else none
    else none
  else none

/-- Matcher for the TO-file header pattern `block_(\d+)\s*=\s*\{` anchored at
`p` (source line 54); on success returns the match end and the numeric id. -/
def matchBlockToAt (content : List Char) (p : Nat) : Option (Nat × Nat) :=
  if matchLit content p (("block_").toList) then
    let ds := digitsRun content (p + 6)
    if ds.length = 0 then none
    else
      let p2 := p + 6 + ds.length
      let p3 := p2 + spacesLen content p2
      if content.getD p3 ' ' = '=' then
        let p4 := p3 + 1 + spacesLen content (p3 + 1)
        if content.getD p4 ' ' = '\x7b' then some (p4 + 1, digitsVal ds) else none
      else none
  else none

/-- Matcher for the FROM-file header pattern `\["\d+_(\d+)"\]\s*=\s*\{`
anchored at `p` (source line 83); the id is the second digit group. -/
def matchBlockFromAt (content : List Char) (p : Nat) : Option (Nat × Nat) :=
  if content.getD p ' ' = '[' ∧ content.getD (p + 1) ' ' = '"' then
    let ds1 := digitsRun content (p + 2)
    if ds1.length = 0 then none
    else
      let q := p + 2 + ds1.length
      if content.getD q ' ' = '_' then
        let ds2 := digitsRun content (q + 1)
        if ds2.length = 0 then none
        else
          let r := q + 1 + ds2.length
          if content.getD r ' ' = '"' ∧ content.getD (r + 1) ' ' = ']' then
            let p3 := r + 2 + spacesLen content (r + 2)
            if content.getD p3 ' ' = '=' then
              let p4 := p3 + 1 + spacesLen content (p3 + 1)
              if content.getD p4 ' ' = '\x7b' then some (p4 + 1, digitsVal ds2)
              else none
            else none
          else none
      else none
  else none

/-- `re.search` over `content[pos:]`: the leftmost position at or after `pos`
where the anchored matcher `m` succeeds, together with the match data.
`fuel = content.length + 1` suffices for any `pos`. -/
def searchAt {α : Type} (m : List Char → Nat → Option α) (content : List Char) :
    Nat → Nat → Option (Nat × α)
  | 0, _ => none
  | fuel + 1, pos =>
    match m content pos with
    | some a => some (pos, a)
    | none => if pos < content.length then searchAt m content fuel (pos + 1) else none

/-- `re.search(r'<kw>\s*=\s*\{', buffer)` searched from the start of the
buffer (as both subsection extractors do). -/
def searchKeyBrace (kw : List Char) (c : List Char) : Option (Nat × Nat) :=
  searchAt (fun content p => (matchKeyBraceAt kw content p).map (fun e => e)) c
    (c.length + 1) 0

/-- The `ASTBlock` record of the source (lines 16-22); `end` is a Lean
keyword, so that field is `end_`. -/
structure ASTBlock where
  start : Nat
  end_ : Nat
  content : List Char
  block_id : Nat
  raw_header : List Char
deriving DecidableEq, Repr

/-- Shared loop body of `extract_blocks_to` / `extract_blocks_from` (source
lines 56-75 and 85-104, identical up to the header matcher `m`): scan for the
next header; on a matched header whose brace resolves, emit the block and
resume at its end; on an unbalanced brace, resume just past the header. -/
def extract_blocks_loop (m : List Char → Nat → Option (Nat × Nat))
    (content : List Char) : Nat → Nat → List ASTBlock
  | 0, _ => []
  | fuel + 1, pos =>
    if pos < content.length then
      match searchAt m content (content.length + 1) pos with
      | none => []
      | some (abs_start, (mend, bid)) =>
        let end_pos := find_matching_brace content (mend - 1)
        if end_pos = -1 then extract_blocks_loop m content fuel mend
        else
          { start := abs_start, end_ := end_pos.toNat,
            content := listSlice content abs_start end_pos.toNat,
            block_id := bid,
            raw_header := listSlice content abs_start mend } ::
            extract_blocks_loop m content fuel end_pos.toNat
    else []

/-- `ASTProcessor.extract_blocks_to` (source lines 50-77). -/
def extract_blocks_to (content : List Char) : List ASTBlock :=
  extract_blocks_loop matchBlockToAt content (content.length + 1) 0

/-- `ASTProcessor.extract_blocks_from` (source lines 79-106). -/
def extract_blocks_from (content : List Char) : List ASTBlock :=
  extract_blocks_loop matchBlockFromAt content (content.length + 1) 0

lemma listSlice_length (l : List Char) (a b : Nat) (h1 : a ≤ b) (h2 : b ≤ l.length) :
    (listSlice l a b).length = b - a := by
  simp [listSlice, List.length_take]
  omega

lemma getD_lt_length (l : List Char) (p : Nat) (c : Char) (hc : c ≠ ' ')
    (h : l.getD p ' ' = c) : p < l.length := by
  by_contra hge
  rw [List.getD_eq_default _ _ (by omega)] at h
  exact hc h.symm

lemma matchKeyBraceAt_bounds (kw content : List Char) (p mend : Nat)
    (h : matchKeyBraceAt kw content p = some mend) :
    p < mend ∧ mend ≤ content.length := by
  unfold matchKeyBraceAt at h
  split at h
  · dsimp only at h
    split at h
    · split at h
      · rename_i h4
        have hlt := getD_lt_length content _ _ (by decide) h4
        simp only [Option.some.injEq] at h
        omega
      · simp at h
    · simp at h
  · simp at h

lemma matchBlockToAt_bounds (content : List Char) (p mend bid : Nat)
    (h : matchBlockToAt content p = some (mend, bid)) :
    p < mend ∧ mend ≤ content.length := by
  unfold matchBlockToAt at h
  split at h
  · dsimp only at h
    split at h
    · simp at h
    · split at h
      · split at h
        · rename_i h4
          have hlt := getD_lt_length content _ _ (by decide) h4
          simp only [Option.some.injEq, Prod.mk.injEq] at h
          omega
        · simp at h
      · simp at h
  · simp at h

lemma matchBlockFromAt_bounds (content : List Char) (p mend bid : Nat)
    (h : matchBlockFromAt content p = some (mend, bid)) :
    p < mend ∧ mend ≤ content.length := by
  unfold matchBlockFromAt at h
  split at h
  · dsimp only at h
    split at h
    · simp at h
    · split at h
      · split at h
        · simp at h
        · split at h
          · split at h
            · split at h
              · rename_i h4
                have hlt := getD_lt_length content _ _ (by decide) h4
                simp only [Option.some.injEq, Prod.mk.injEq] at h
                omega
              · simp at h
            · simp at h
          · simp at h
      · simp at h
  · simp at h

lemma searchAt_success {α : Type} (m : List Char → Nat → Option α)
    (content : List Char) :
    ∀ fuel pos st a, searchAt m content fuel pos = some (st, a) →
      pos ≤ st ∧ m content st = some a := by
  intro fuel
  induction fuel with
  | zero => intro pos st a h; simp [searchAt] at h
  | succ fuel ih =>
    intro pos st a h
    unfold searchAt at h
    split at h
    · rename_i v hv
      simp only [Option.some.injEq, Prod.mk.injEq] at h
      obtain ⟨rfl, rfl⟩ := h
      exact ⟨le_refl _, hv⟩
    · split at h
      · obtain ⟨h1, h2⟩ := ih (pos + 1) st a h
        exact ⟨by omega, h2⟩
      · simp at h

/-- Well-formedness of one extracted block relative to the buffer and the
scan position at which the enclosing loop iteration started. -/
def  BlockWF (c : List Char) (p : Nat) (b : ASTBlock) : Prop :=
  p ≤ b.start ∧ b.start < b.end_ ∧ b.end_ ≤ c.length ∧
    b.content = listSlice c b.start b.end_

lemma extract_blocks_loop_wf (m : List Char → Nat → Option (Nat × Nat))
    (c : List Char)
    (hm : ∀ p mend bid, m c p = some (mend, bid) → p < mend ∧ mend ≤ c.length) :
    ∀ fuel pos,
      (∀ b ∈ extract_blocks_loop m c fuel pos, BlockWF c pos b) ∧
      (extract_blocks_loop m c fuel pos).Pairwise (fun a b => a.end_ ≤ b.start) := by
  intro fuel
  induction fuel with
  | zero => intro pos; simp [extract_blocks_loop]
  | succ fuel ih =>
    intro pos
    unfold extract_blocks_loop
    by_cases hpos0 : pos < c.length
    · rw [if_pos hpos0]
      cases hs : searchAt m c (c.length + 1) pos with
      | none => simp
      | some v =>
        obtain ⟨st, mend, bid⟩ := v
        obtain ⟨hpos, hmatch⟩ := searchAt_success m c _ pos st (mend, bid) hs
        obtain ⟨hlt, hle⟩ := hm st mend bid hmatch
        dsimp only
        by_cases hbad : find_matching_brace c (mend - 1) = -1
        · rw [if_pos hbad]
          refine ⟨fun b hb => ?_, (ih mend).2⟩
          obtain ⟨h1, h2, h3, h4⟩ := (ih mend).1 b hb
          exact ⟨by omega, h2, h3, h4⟩
        · rw [if_neg hbad]
          obtain ⟨e, he, helt, hele, _⟩ :=
            find_matching_brace_success c (mend - 1) hbad
          rw [he]
          simp only [Int.toNat_natCast]
          constructor
          · intro b hb
            rcases List.mem_cons.mp hb with rfl | hb
            · exact ⟨hpos, by show st < e; omega, hele, rfl⟩
            · obtain ⟨h1, h2, h3, h4⟩ := (ih e).1 b hb
              exact ⟨by omega, h2, h3, h4⟩
          · refine List.pairwise_cons.mpr ⟨fun b hb => ?_, (ih e).2⟩
            exact ((ih e).1 b hb).1
    · rw [if_neg hpos0]
      simp

lemma extract_blocks_to_wf (c : List Char) :
    (∀ b ∈ extract_blocks_to c, BlockWF c 0 b) ∧
    (extract_blocks_to c).Pairwise (fun a b => a.end_ ≤ b.start) :=
  extract_blocks_loop_wf matchBlockToAt c
    (fun p mend bid h => matchBlockToAt_bounds c p mend bid h) (c.length + 1) 0

lemma extract_blocks_from_wf (c : List Char) :
    (∀ b ∈ extract_blocks_from c, BlockWF c 0 b) ∧
    (extract_blocks_from c).Pairwise (fun a b => a.end_ ≤ b.start) :=
  extract_blocks_loop_wf matchBlockFromAt c
    (fun p mend bid h => matchBlockFromAt_bounds c p mend bid h) (c.length + 1) 0

/-- Claim C7: blocks located in one buffer are pairwise non-overlapping and
strictly ordered by start offset (for both the target- and source-form
locators); moreover, on a concrete buffer with block headers `0`, `1`, `2`
where header `1` has an unbalanced brace, no block is emitted for the broken
header and the later well-formed block `2` is still found at its correct
span. -/
theorem claim7_blocks_ordered :
    (∀ c : List Char, (extract_blocks_to c).Pairwise
      (fun a b => a.end_ ≤ b.start ∧ a.start < b.start)) ∧
    (∀ c : List Char, (extract_blocks_from c).Pairwise
      (fun a b => a.end_ ≤ b.start ∧ a.start < b.start)) ∧
    ((extract_blocks_to (("block_00000 = \x7b a \x7d block_00001 = \x7b b block_00002 = \x7b c \x7d").toList)).map
      (fun b => (b.block_id, b.start, b.end_)) = [(0, 0, 19), (2, 38, 57)]) := by
  refine ⟨?_, ?_, by decide⟩
  · intro c
    refine List.Pairwise.imp_of_mem (fun {a b} ha hb hr => ?_)
      (extract_blocks_to_wf c).2
    have := ((extract_blocks_to_wf c).1 a ha).2.1
    exact ⟨hr, by omega⟩
  · intro c
    refine List.Pairwise.imp_of_mem (fun {a b} ha hb hr => ?_)
      (extract_blocks_from_wf c).2
    have := ((extract_blocks_from_wf c).1 a ha).2.1
    exact ⟨hr, by omega⟩

/-- `ASTProcessor.extract_ja_section` (source lines 108-138): locate
`text = {…}` in the block content, then `ja = {…}` inside that section;
return the `ja` span (offsets relative to the block content) and its raw
content. -/
def extract_ja_section (block_content : List Char) : Option (Nat × Nat × List Char) :=
  match searchKeyBrace (("text").toList) block_content with
  | none => none
  | some (text_start, tmend) =>
    let text_end := find_matching_brace block_content (tmend - 1)
    if text_end = -1 then none
    else
      let text_section := listSlice block_content text_start text_end.toNat
      match searchKeyBrace (("ja").toList) text_section with
      | none => none
      | some (ja_start, jmend) =>
        let ja_end := find_matching_brace text_section (jmend - 1)
        if ja_end = -1 then none
        else
          some (text_start + ja_start, text_start + ja_end.toNat,
            listSlice text_section ja_start ja_end.toNat)

/-- First index `q ≥ p` holding a closing brace (how the lazy group of the
`name` field pattern resolves: the group ends at the first following `}`). -/
def findCloseIdx (c : List Char) (p : Nat) : Option Nat :=
  let k := ((c.drop p).takeWhile (fun ch => ch ≠ '\x7d')).length
  if p + k < c.length then some (p + k) else none

/-- Body scan of the quoted-string pattern `"(?:[^"\\]|\\.)*"` from the
character after an opening quote: a backslash escapes the next character
(which `.` requires to be a non-newline), any other character except `"` is
literal; returns the index one past the closing quote. -/
def scanQuotedBody (c : List Char) : Nat → Nat → Option Nat
  | 0, _ => none
  | fuel + 1, p =>
    if p < c.length then
      if c.getD p ' ' = '"' then some (p + 1)
      else if c.getD p ' ' = '\\' then
        if p + 1 < c.length ∧ c.getD (p + 1) ' ' ≠ '\n' then
          scanQuotedBody c fuel (p + 2)
        else none
      else scanQuotedBody c fuel (p + 1)
    else none

/-- `re.findall(r'"(?:[^"\\]|\\.)*"', …)`: all non-overlapping quoted strings,
left to right. -/
def findallQuotedFrom (c : List Char) : Nat → Nat → List (List Char)
  | 0, _ => []
  | fuel + 1, p =>
    if p < c.length then
      if c.getD p ' ' = '"' then
        match scanQuotedBody c (c.length + 1) (p + 1) with
        | some q => listSlice c p q :: findallQuotedFrom c fuel q
        | none => findallQuotedFrom c fuel (p + 1)
      else findallQuotedFrom c fuel (p + 1)
    else []

def findallQuoted (c : List Char) : List (List Char) :=
  findallQuotedFrom c (c.length + 1) 0

/-- `re.sub(r'(name\s*=\s*\{)(.*?)(\})', transform_name, …)` of source lines
169-181: every `name = {` list whose lazy body ends at the first `}` is
replaced by the matched header, the LAST quoted string of the body, and the
closing brace; a body with no quoted strings is left as matched. -/
def nameSubFrom (c : List Char) : Nat → Nat → List Char
  | 0, pos => c.drop pos
  | fuel + 1, pos =>
    if pos < c.length then
      match matchKeyBraceAt (("name").toList) c pos with
      | some p1 =>
        match findCloseIdx c p1 with
        | some q =>
          (match (findallQuoted (listSlice c p1 q)).getLast? with
           | some last => listSlice c pos p1 ++ last ++ ['\x7d']
           | none => listSlice c pos (q + 1)) ++ nameSubFrom c fuel (q + 1)
        | none => c.getD pos ' ' :: nameSubFrom c fuel (pos + 1)
      | none => c.getD pos ' ' :: nameSubFrom c fuel (pos + 1)
    else []

/-- The full `name`-field transform applied to a harvested `en` section. -/
def transform_name_sub (c : List Char) : List Char :=
  nameSubFrom c (c.length + 1) 0

/-- `re.sub(r'^en\s*=', 'ja =', …, count=1)` of source line 184: rewrite the
leading `en =` tag (case-insensitively) to `ja =`. -/
def retagEn (c : List Char) : List Char :=
  if matchLit c 0 (("en").toList) then
    let p3 := 2 + spacesLen c 2
    if c.getD p3 ' ' = '=' then (("ja =").toList) ++ c.drop (p3 + 1) else c
  else c

/-- `ASTProcessor.extract_en_section` (source lines 140-185): locate
`text = {…}` then `en = {…}` inside it, apply the `name` transform and the
tag rewrite, and return the replacement text. -/
def extract_en_section (block_content : List Char) : Option (List Char) :=
  match searchKeyBrace (("text").toList) block_content with
  | none => none
  | some (text_start, tmend) =>
    let text_end := find_matching_brace block_content (tmend - 1)
    if text_end = -1 then none
    else
      let text_section := listSlice block_content text_start text_end.toNat
      match searchKeyBrace (("en").toList) text_section with
      | none => none
      | some (en_start, emend) =>
        let en_end := find_matching_brace text_section (emend - 1)
        if en_end = -1 then none
        else
          some (retagEn (transform_name_sub
            (listSlice text_section en_start en_end.toNat)))

/-- Claim C6 counterexample: the singleton input `name = { "OnlyOne" }` is NOT
left unchanged (the replacement is the matched header plus the last quoted
string plus `}`, dropping the interior padding), and the two-element input
does not yield the claimed `name = { "Haruto" }` either. -/
theorem claim6_counterexample :
    transform_name_sub (("name = \x7b \"OnlyOne\" \x7d").toList) ≠
      (("name = \x7b \"OnlyOne\" \x7d").toList) ∧
    transform_name_sub (("name = \x7b \"遥斗\", \"Haruto\" \x7d").toList) ≠
      (("name = \x7b \"Haruto\" \x7d").toList) := by
  decide

/-- Claim C6 (amended): the field transform rewrites a `name` list to the
matched `name = {` header immediately followed by the LAST quoted string and
the closing brace, with no interior padding: `name = { "遥斗", "Haruto" }`
becomes `name = {"Haruto"}`, `name = { "OnlyOne" }` becomes
`name = {"OnlyOne"}` (so a singleton is reformatted, not left unchanged), and
a `name` field containing zero quoted strings is left unmodified. -/
theorem claim6_name_transform :
    transform_name_sub (("name = \x7b \"遥斗\", \"Haruto\" \x7d").toList) =
      (("name = \x7b\"Haruto\"\x7d").toList) ∧
    transform_name_sub (("name = \x7b \"OnlyOne\" \x7d").toList) =
      (("name = \x7b\"OnlyOne\"\x7d").toList) ∧
    transform_name_sub (("name = \x7b \x7d tail").toList) =
      (("name = \x7b \x7d tail").toList) := by
  decide

/-- One entry of the `replacements` dict (source line 223): key
`absolute start`, value `(absolute end, replacement text)`. -/
structure Edit where
  s : Nat
  e : Nat
  r : List Char
deriving DecidableEq, Repr

/-- One slice assignment `result_chars[start:end] = list(replacement)`
(source line 251), for `s ≤ e`. -/
def spliceOne (buf : List Char) (ed : Edit) : List Char :=
  buf.take ed.s ++ ed.r ++ buf.drop ed.e

def insertDesc (x : Edit) : List Edit → List Edit
  | [] => [x]
  | y :: ys => if y.s ≤ x.s then x :: y :: ys else y :: insertDesc x ys

/-- `sorted(replacements.keys(), reverse=True)` (source line 249) lifted to
the edit list: descending insertion sort on the start offsets (the dict keys
are distinct, so this is the unique descending arrangement). -/
def sortEditsDesc : List Edit → List Edit
  | [] => []
  | x :: xs => insertDesc x (sortEditsDesc xs)

/-- The substitution engine (source lines 248-253): apply all edits in
strictly descending order of absolute start offset. -/
def apply_edits (buf : List Char) (edits : List Edit) : List Char :=
  (sortEditsDesc edits).foldl spliceOne buf

/-- Direct reconstruction of the edited buffer: the unedited segment before
each edit, its replacement, and finally the unedited tail. `p` is the offset
where the next unedited segment starts; the edit list must be ascending. -/
def reconstruct (buf : List Char) : Nat → List Edit → List Char
  | p, [] => buf.drop p
  | p, ed :: rest => (buf.take ed.s).drop p ++ ed.r ++ reconstruct buf ed.e rest

/-- Ascending, non-overlapping, in-bounds edit chain starting at offset `p`. -/
def editsOKb (buf : List Char) : Nat → List Edit → Bool
  | _, [] => true
  | p, ed :: rest =>
    decide (p ≤ ed.s) && decide (ed.s ≤ ed.e) && decide (ed.e ≤ buf.length) &&
      editsOKb buf ed.e rest

/-- Two edits touch disjoint spans. -/
def SpanDisj (a b : Edit) : Prop := a.e ≤ b.s ∨ b.e ≤ a.s

instance (a b : Edit) : Decidable (SpanDisj a b) :=
  inferInstanceAs (Decidable (_ ∨ _))

lemma spanDisj_symm : ∀ {a b : Edit}, SpanDisj a b → SpanDisj b a := by
  intro a b h; cases h with
  | inl h => exact Or.inr h
  | inr h => exact Or.inl h

lemma mem_insertDesc (x a : Edit) : ∀ l, a ∈ insertDesc x l ↔ a = x ∨ a ∈ l := by
  intro l
  induction l with
  | nil => simp [insertDesc]
  | cons y ys ih =>
    unfold insertDesc
    split
    · simp [List.mem_cons]
    · simp only [List.mem_cons, ih]
      tauto

lemma insertDesc_perm (x : Edit) : ∀ l, (insertDesc x l).Perm (x :: l) := by
  intro l
  induction l with
  | nil => simp [insertDesc]
  | cons y ys ih =>
    unfold insertDesc
    split
    · exact List.Perm.refl _
    · exact (List.Perm.cons y ih).trans (List.Perm.swap x y ys)

lemma sortEditsDesc_perm : ∀ l : List Edit, (sortEditsDesc l).Perm l := by
  intro l
  induction l with
  | nil => simp [sortEditsDesc]
  | cons x xs ih =>
    exact (insertDesc_perm x (sortEditsDesc xs)).trans (List.Perm.cons x ih)

lemma insertDesc_sorted (x : Edit) :
    ∀ l, l.Pairwise (fun a b => b.s ≤ a.s) →
      (insertDesc x l).Pairwise (fun a b => b.s ≤ a.s) := by
  intro l
  induction l with
  | nil => simp [insertDesc]
  | cons y ys ih =>
    intro h
    obtain ⟨hy, hys⟩ := List.pairwise_cons.mp h
    unfold insertDesc
    split
    · rename_i hle
      refine List.pairwise_cons.mpr ⟨?_, h⟩
      intro b hb
      rcases List.mem_cons.mp hb with rfl | hb
      · exact hle
      · exact le_trans (hy b hb) hle
    · rename_i hgt
      refine List.pairwise_cons.mpr ⟨?_, ih hys⟩
      intro b hb
      rcases (mem_insertDesc x b ys).mp hb with rfl | hb
      · omega
      · exact hy b hb

lemma sortEditsDesc_sorted :
    ∀ l : List Edit, (sortEditsDesc l).Pairwise (fun a b => b.s ≤ a.s) := by
  intro l
  induction l with
  | nil => simp [sortEditsDesc]
  | cons x xs ih => exact insertDesc_sorted x (sortEditsDesc xs) ih

lemma foldr_splice_reconstruct (buf : List Char) :
    ∀ (l : List Edit) (p : Nat), editsOKb buf p l = true →
      (l.foldr (fun ed b => spliceOne b ed) buf).drop p = reconstruct buf p l ∧
      (l.foldr (fun ed b => spliceOne b ed) buf).take p = buf.take p := by
  intro l
  induction l with
  | nil => intro p _; simp [reconstruct]
  | cons ed rest ih =>
    intro p h
    simp only [editsOKb, Bool.and_eq_true, decide_eq_true_eq] at h
    obtain ⟨⟨⟨h1, h2⟩, h3⟩, h4⟩ := h
    obtain ⟨hd, ht⟩ := ih ed.e h4
    set B := rest.foldr (fun ed b => spliceOne b ed) buf with hB
    have hlenB : ed.e ≤ B.length := by
      have := congrArg List.length ht
      simp only [List.length_take] at this
      omega
    have hBs : B.take ed.s = buf.take ed.s := by
      have h5 : (B.take ed.e).take ed.s = (buf.take ed.e).take ed.s := by rw [ht]
      simpa [List.take_take, Nat.min_eq_left h2] using h5
    have hx : p ≤ (B.take ed.s).length := by
      simp only [List.length_take]
      omega
    simp only [List.foldr_cons, reconstruct]
    constructor
    · show (spliceOne B ed).drop p = _
      unfold spliceOne
      rw [List.append_assoc, List.drop_append_eq_append_drop,
        Nat.sub_eq_zero_of_le hx, List.drop_zero, hBs, hd,
        ← List.append_assoc]
    · show (spliceOne B ed).take p = _
      unfold spliceOne
      have hpB : B.take p = buf.take p := by
        have h6 := congrArg (List.take p) ht
        simpa [List.take_take, Nat.min_eq_left (le_trans h1 h2)] using h6
      rw [List.append_assoc, List.take_append_eq_append_take,
        Nat.sub_eq_zero_of_le hx, List.take_zero, List.append_nil,
        List.take_take, Nat.min_eq_left h1, hpB]

lemma apply_edits_eq_foldr (buf : List Char) (edits : List Edit) :
    apply_edits buf edits =
      ((sortEditsDesc edits).reverse).foldr (fun ed b => spliceOne b ed) buf := by
  have h := List.foldl_reverse ((sortEditsDesc edits).reverse) spliceOne buf
  rw [List.reverse_reverse] at h
  exact h

lemma editsOKb_of_sorted (buf : List Char) :
    ∀ (l : List Edit) (p : Nat),
      l.Pairwise (fun a b => a.s ≤ b.s) → l.Pairwise SpanDisj →
      (∀ ed ∈ l, ed.s < ed.e ∧ ed.e ≤ buf.length) → (∀ ed ∈ l, p ≤ ed.s) →
      editsOKb buf p l = true := by
  intro l
  induction l with
  | nil => intro p _ _ _ _; rfl
  | cons ed rest ih =>
    intro p hs hdisj hb hp
    obtain ⟨hs1, hs2⟩ := List.pairwise_cons.mp hs
    obtain ⟨hd1, hd2⟩ := List.pairwise_cons.mp hdisj
    simp only [editsOKb, Bool.and_eq_true, decide_eq_true_eq]
    obtain ⟨he1, he2⟩ := hb ed (List.mem_cons_self ed rest)
    refine ⟨⟨⟨hp ed (List.mem_cons_self ed rest), by omega⟩, he2⟩, ?_⟩
    refine ih ed.e hs2 hd2 (fun x hx => hb x (List.mem_cons_of_mem ed hx)) ?_
    intro x hx
    rcases hd1 x hx with h | h
    · exact h
    · obtain ⟨hx1, _⟩ := hb x (List.mem_cons_of_mem ed hx)
      have := hs1 x hx
      omega

lemma apply_edits_reconstruct_core (buf : List Char) (edits : List Edit)
    (hdisj : edits.Pairwise SpanDisj)
    (hb : ∀ ed ∈ edits, ed.s < ed.e ∧ ed.e ≤ buf.length) :
    apply_edits buf edits = reconstruct buf 0 ((sortEditsDesc edits).reverse) := by
  have hperm : ((sortEditsDesc edits).reverse).Perm edits :=
    ((sortEditsDesc edits).reverse_perm).trans (sortEditsDesc_perm edits)
  have hsorted : ((sortEditsDesc edits).reverse).Pairwise (fun a b => a.s ≤ b.s) :=
    List.pairwise_reverse.mpr (sortEditsDesc_sorted edits)
  have hdisj2 : ((sortEditsDesc edits).reverse).Pairwise SpanDisj :=
    hdisj.perm hperm.symm (fun h => spanDisj_symm h)
  have hb2 : ∀ ed ∈ (sortEditsDesc edits).reverse, ed.s < ed.e ∧ ed.e ≤ buf.length :=
    fun ed hed => hb ed (hperm.mem_iff.mp hed)
  have hok : editsOKb buf 0 ((sortEditsDesc edits).reverse) = true :=
    editsOKb_of_sorted buf _ 0 hsorted hdisj2 hb2 (fun ed _ => Nat.zero_le _)
  have h := (foldr_splice_reconstruct buf ((sortEditsDesc edits).reverse) 0 hok).1
  rw [List.drop_zero] at h
  rw [apply_edits_eq_foldr, h]

/-- Claim C1: for every buffer and every finite list of pairwise
non-overlapping in-bounds edits, applying them in strictly descending order
of absolute start offset — exactly what `apply_edits` does — yields the same
buffer as direct reconstruction (concatenating the unedited segments with
each replacement in place, in ascending order), regardless of whether
replacement lengths differ from the replaced spans. -/
theorem claim1_apply_edits_reconstruct (buf : List Char) (edits : List Edit)
    (hdisj : edits.Pairwise SpanDisj)
    (hb : ∀ ed ∈ edits, ed.s < ed.e ∧ ed.e ≤ buf.length) :
    apply_edits buf edits = reconstruct buf 0 ((sortEditsDesc edits).reverse) :=
  apply_edits_reconstruct_core buf edits hdisj hb

/-- Claim C1 witness: the spec's concrete instance — a 30-character buffer
with a growing edit `[10,15) → 10 chars` and a shrinking edit
`[20,22) → 1 char`. -/
theorem claim1_apply_edits_reconstruct_witness :
    (([⟨10, 15, ("XXXXXXXXXX").toList⟩, ⟨20, 22, ("Y").toList⟩] :
        List Edit).Pairwise SpanDisj ∧
      (∀ ed ∈ ([⟨10, 15, ("XXXXXXXXXX").toList⟩, ⟨20, 22, ("Y").toList⟩] :
        List Edit), ed.s < ed.e ∧ ed.e ≤ (("abcdefghijklmnopqrstuvwxyz0123").toList).length)) ∧
    apply_edits (("abcdefghijklmnopqrstuvwxyz0123").toList)
        [⟨10, 15, ("XXXXXXXXXX").toList⟩, ⟨20, 22, ("Y").toList⟩] =
      reconstruct (("abcdefghijklmnopqrstuvwxyz0123").toList) 0
        ((sortEditsDesc [⟨10, 15, ("XXXXXXXXXX").toList⟩,
          ⟨20, 22, ("Y").toList⟩]).reverse) :=
  ⟨⟨by decide, by decide⟩,
    claim1_apply_edits_reconstruct (("abcdefghijklmnopqrstuvwxyz0123").toList)
      [⟨10, 15, ("XXXXXXXXXX").toList⟩, ⟨20, 22, ("Y").toList⟩]
      (by decide) (by decide)⟩

/-- Python `dict` assignment `d[k] = v`: an existing key keeps its insertion
position but takes the new value; a new key is appended. -/
def dictInsert (k : Nat) (v : ASTBlock) (d : List (Nat × ASTBlock)) :
    List (Nat × ASTBlock) :=
  if d.any (fun p => p.1 == k) then
    d.map (fun p => if p.1 == k then (k, v) else p)
  else d ++ [(k, v)]

/-- `{b.block_id: b for b in blocks}` (source lines 207-208). -/
def buildDict (blocks : List ASTBlock) : List (Nat × ASTBlock) :=
  blocks.foldl (fun d b => dictInsert b.block_id b d) []

/-- `d.get(k)` / `k in d` lookup. -/
def lookupDict (d : List (Nat × ASTBlock)) (k : Nat) : Option ASTBlock :=
  match d.find? (fun p => p.1 == k) with
  | some p => some p.2
  | none => none

/-- `replacements[key] = value` on the edit dict keyed by absolute start. -/
def dictInsertEdit (l : List Edit) (ed : Edit) : List Edit :=
  if l.any (fun x => x.s == ed.s) then
    l.map (fun x => if x.s == ed.s then ed else x)
  else l ++ [ed]

/-- One iteration of the correlation loop (source lines 216-227): look up the
source block at `to_id + 1`; on a hit, harvest its `en` section; if harvested,
locate the target's `ja` span and record the edit, else record the target id
as unmatched; if the source id is absent, record the target id as unmatched.
A correlated pair whose `en` harvest fails is silently skipped. -/
def replStep (from_dict : List (Nat × ASTBlock)) (acc : List Edit × List Nat)
    (p : Nat × ASTBlock) : List Edit × List Nat :=
  match lookupDict from_dict (p.1 + 1) with
  | some fb =>
    match extract_en_section fb.content with
    | some en =>
      match extract_ja_section p.2.content with
      | some jap =>
        (dictInsertEdit acc.1 ⟨p.2.start + jap.1, p.2.start + jap.2.1, en⟩, acc.2)
      | none => (acc.1, acc.2 ++ [p.1])
    | none => acc
  | none => (acc.1, acc.2 ++ [p.1])

/-- The full correlation pass: the edit dict and the unmatched-target list. -/
def computeRepl (to_dict from_dict : List (Nat × ASTBlock)) :
    List Edit × List Nat :=
  to_dict.foldl (replStep from_dict) ([], [])

/-- The unmatched-source pass (source lines 229-231): a source id `s` is
unmatched when `s - 1` is not a target id; Python's `s - 1` is `-1` for
`s = 0`, which can never be a key, hence the explicit zero case. -/
def computeUnmatchedFrom (from_dict to_dict : List (Nat × ASTBlock)) : List Nat :=
  from_dict.foldl
    (fun acc p =>
      match p.1 with
      | 0 => acc ++ [p.1]
      | n + 1 => if lookupDict to_dict n = none then acc ++ [p.1] else acc)
    []

def to_dictOf (t : List Char) : List (Nat × ASTBlock) :=
  buildDict (extract_blocks_to t)

def from_dictOf (f : List Char) : List (Nat × ASTBlock) :=
  buildDict (extract_blocks_from f)

/-- The edit set computed for a file pair. -/
def replacementsOf (t f : List Char) : List Edit :=
  (computeRepl (to_dictOf t) (from_dictOf f)).1

def unmatchedToOf (t f : List Char) : List Nat :=
  (computeRepl (to_dictOf t) (from_dictOf f)).2

def unmatchedFromOf (t f : List Char) : List Nat :=
  computeUnmatchedFrom (from_dictOf f) (to_dictOf t)

inductive FailReason where
  | noBlocksTo
  | noBlocksFrom
  | noReplacements
  | corrupted
deriving DecidableEq, Repr

/-- Outcome of `ASTProcessor.process_file` on one file pair: `output = some r`
models a successful run that writes `r`; `failure` models the entry appended
to `failed_files`. -/
structure ProcResult where
  success : Bool
  output : Option (List Char)
  failure : Option FailReason
  unmatched_to : List Nat
  unmatched_from : List Nat
deriving DecidableEq, Repr

/-- `ASTProcessor.process_file` (source lines 187-266) minus the file I/O:
extract blocks from both buffers, correlate with the fixed `+1` offset,
apply the edits last-to-first, and run the integrity check before any output
is produced. -/
def process_file (t f : List Char) : ProcResult :=
  if extract_blocks_to t = [] then
    ⟨false, none, some FailReason.noBlocksTo, [], []⟩
  else if extract_blocks_from f = [] then
    ⟨false, none, some FailReason.noBlocksFrom, [], []⟩
  else if replacementsOf t f = [] then
    ⟨false, none, some FailReason.noReplacements,
      unmatchedToOf t f, unmatchedFromOf t f⟩
  else if ¬ (List.IsInfix (("astver").toList)
        ((apply_edits t (replacementsOf t f)).take 200) ∧
      List.IsInfix (("ast = \x7b").toList)
        ((apply_edits t (replacementsOf t f)).take 300)) then
    ⟨false, none, some FailReason.corrupted,
      unmatchedToOf t f, unmatchedFromOf t f⟩
  else
    ⟨true, some (apply_edits t (replacementsOf t f)), none,
      unmatchedToOf t f, unmatchedFromOf t f⟩

/-- Target buffer for the correlator scenario: block ids 0, 1, 2, each with a
well-formed `text`/`ja` subsection, preceded by the integrity markers. -/
def corrTarget : List Char :=
  ("astver 1. ast = \x7b block_00000 = \x7b text = \x7b ja = \x7b a \x7d \x7d \x7d block_00001 = \x7b text = \x7b ja = \x7b b \x7d \x7d \x7d block_00002 = \x7b text = \x7b ja = \x7b c \x7d \x7d \x7d \x7d").toList

/-- Source buffer for the correlator scenario: block ids 1, 2, 4, each with a
well-formed `text`/`en` subsection. -/
def corrSource : List Char :=
  ("[\"0001_00001\"] = \x7b text = \x7b en = \x7b x \x7d \x7d \x7d [\"0001_00002\"] = \x7b text = \x7b en = \x7b y \x7d \x7d \x7d [\"0001_00004\"] = \x7b text = \x7b en = \x7b z \x7d \x7d \x7d").toList

set_option maxRecDepth 100000 in
/-- Claim C5: on a target with block ids `{0,1,2}` and a source with block
ids `{1,2,4}`, the `source_id = target_id + 1` correlation pairs target 0
with source 1 and target 1 with source 2 (the two recorded edits carry
exactly the transformed `en` harvests of sources 1 and 2, at the `ja` spans
of targets 0 and 1), records exactly one unmatched target id (2) and exactly
one unmatched source id (4). -/
theorem claim5_correlator :
    ((extract_blocks_to corrTarget).map (fun b => b.block_id) = [0, 1, 2]) ∧
    ((extract_blocks_from corrSource).map (fun b => b.block_id) = [1, 2, 4]) ∧
    replacementsOf corrTarget corrSource =
      [⟨43, 53, ("ja = \x7b x \x7d").toList⟩,
       ⟨83, 93, ("ja = \x7b y \x7d").toList⟩] ∧
    ((lookupDict (from_dictOf corrSource) 1).map
      (fun b => extract_en_section b.content) =
        some (some (("ja = \x7b x \x7d").toList))) ∧
    ((lookupDict (from_dictOf corrSource) 2).map
      (fun b => extract_en_section b.content) =
        some (some (("ja = \x7b y \x7d").toList))) ∧
    ((extract_blocks_to corrTarget).map
      (fun b => (extract_ja_section b.content).map
        (fun jap => (b.start + jap.1, b.start + jap.2.1))) =
      [some (43, 53), some (83, 93), some (123, 133)]) ∧
    unmatchedToOf corrTarget corrSource = [2] ∧
    unmatchedFromOf corrTarget corrSource = [4] := by
  decide

/-- Claim C8: whenever both buffers contain blocks but the computed
replacement set is empty, the file is rejected with the
`NoReplacementsFound`-style failure, `process_file` reports no success, and
no output is produced. -/
theorem claim8_no_replacements (t f : List Char)
    (h1 : extract_blocks_to t ≠ [])
    (h2 : extract_blocks_from f ≠ [])
    (h3 : replacementsOf t f = []) :
    process_file t f = ⟨false, none, some FailReason.noReplacements,
      unmatchedToOf t f, unmatchedFromOf t f⟩ := by
  unfold process_file
  rw [if_neg h1, if_neg h2, if_pos h3]

/-- Claim C8 witness: a target whose single block has no correlated source
block (source holds only id 5), so the replacement set is empty and the file
is rejected. -/
theorem claim8_no_replacements_witness :
    (extract_blocks_to (("astver ast = \x7b block_00000 = \x7b text = \x7b ja = \x7b a \x7d \x7d \x7d \x7d").toList) ≠ [] ∧
     extract_blocks_from (("[\"0001_00005\"] = \x7b text = \x7b en = \x7b x \x7d \x7d \x7d").toList) ≠ [] ∧
     replacementsOf (("astver ast = \x7b block_00000 = \x7b text = \x7b ja = \x7b a \x7d \x7d \x7d \x7d").toList)
       (("[\"0001_00005\"] = \x7b text = \x7b en = \x7b x \x7d \x7d \x7d").toList) = []) ∧
    process_file (("astver ast = \x7b block_00000 = \x7b text = \x7b ja = \x7b a \x7d \x7d \x7d \x7d").toList)
        (("[\"0001_00005\"] = \x7b text = \x7b en = \x7b x \x7d \x7d \x7d").toList) =
      ⟨false, none, some FailReason.noReplacements,
        unmatchedToOf (("astver ast = \x7b block_00000 = \x7b text = \x7b ja = \x7b a \x7d \x7d \x7d \x7d").toList)
          (("[\"0001_00005\"] = \x7b text = \x7b en = \x7b x \x7d \x7d \x7d").toList),
        unmatchedFromOf (("astver ast = \x7b block_00000 = \x7b text = \x7b ja = \x7b a \x7d \x7d \x7d \x7d").toList)
          (("[\"0001_00005\"] = \x7b text = \x7b en = \x7b x \x7d \x7d \x7d").toList)⟩ :=
  ⟨⟨by decide, by decide, by decide⟩,
    claim8_no_replacements _ _ (by decide) (by decide) (by decide)⟩

/-- Claim C9: after all edits are applied, if the first 200 characters of the
result lack the `astver` token or the first 300 lack `ast = {`, the whole
operation is rejected: a corruption failure is recorded and no output is
produced, even though all edits were computed and applied. -/
theorem claim9_integrity_check (t f : List Char)
    (h1 : extract_blocks_to t ≠ [])
    (h2 : extract_blocks_from f ≠ [])
    (h3 : replacementsOf t f ≠ [])
    (h4 : ¬ List.IsInfix (("astver").toList)
        ((apply_edits t (replacementsOf t f)).take 200) ∨
      ¬ List.IsInfix (("ast = \x7b").toList)
        ((apply_edits t (replacementsOf t f)).take 300)) :
    process_file t f = ⟨false, none, some FailReason.corrupted,
      unmatchedToOf t f, unmatchedFromOf t f⟩ := by
  unfold process_file
  rw [if_neg h1, if_neg h2, if_neg h3, if_pos (by tauto)]

/-- Claim C9 witness: a file pair whose single correlated pair yields a valid
edit, but whose target lacks the `astver` marker, so the output is rejected
after the edits were applied. -/
theorem claim9_integrity_check_witness :
    (extract_blocks_to (("block_00000 = \x7b text = \x7b ja = \x7b a \x7d \x7d \x7d").toList) ≠ [] ∧
     replacementsOf (("block_00000 = \x7b text = \x7b ja = \x7b a \x7d \x7d \x7d").toList)
       (("[\"0001_00001\"] = \x7b text = \x7b en = \x7b x \x7d \x7d \x7d").toList) ≠ []) ∧
    process_file (("block_00000 = \x7b text = \x7b ja = \x7b a \x7d \x7d \x7d").toList)
        (("[\"0001_00001\"] = \x7b text = \x7b en = \x7b x \x7d \x7d \x7d").toList) =
      ⟨false, none, some FailReason.corrupted,
        unmatchedToOf (("block_00000 = \x7b text = \x7b ja = \x7b a \x7d \x7d \x7d").toList)
          (("[\"0001_00001\"] = \x7b text = \x7b en = \x7b x \x7d \x7d \x7d").toList),
        unmatchedFromOf (("block_00000 = \x7b text = \x7b ja = \x7b a \x7d \x7d \x7d").toList)
          (("[\"0001_00001\"] = \x7b text = \x7b en = \x7b x \x7d \x7d \x7d").toList)⟩ :=
  ⟨⟨by decide, by decide⟩,
    claim9_integrity_check _ _ (by decide) (by decide) (by decide)
      (Or.inl (by decide))⟩

/-- Claim C10: in the correlation loop, a target block whose correlated
source block exists but whose `en` harvest returns `None` contributes
neither an edit nor an unmatched-target record (the pair is silently
skipped), whereas a harvested `en` with a missing target `ja` subsection
records the target id as unmatched. -/
theorem claim10_silent_skip :
    (∀ (fd : List (Nat × ASTBlock)) (acc : List Edit × List Nat)
        (p : Nat × ASTBlock) (fb : ASTBlock),
      lookupDict fd (p.1 + 1) = some fb →
      extract_en_section fb.content = none →
      replStep fd acc p = acc) ∧
    (∀ (fd : List (Nat × ASTBlock)) (acc : List Edit × List Nat)
        (p : Nat × ASTBlock) (fb : ASTBlock) (en : List Char),
      lookupDict fd (p.1 + 1) = some fb →
      extract_en_section fb.content = some en →
      extract_ja_section p.2.content = none →
      replStep fd acc p = (acc.1, acc.2 ++ [p.1])) := by
  constructor
  · intro fd acc p fb h1 h2
    simp only [replStep, h1, h2]
  · intro fd acc p fb en h1 h2 h3
    simp only [replStep, h1, h2, h3]

/-- Claim C10 witness: a concrete dict entry whose source content has no `en`
section — the step leaves the accumulator untouched. -/
theorem claim10_silent_skip_witness :
    (lookupDict [(1, ⟨0, 3, ("abc").toList, 1, []⟩)] (0 + 1) =
        some ⟨0, 3, ("abc").toList, 1, []⟩ ∧
      extract_en_section (("abc").toList) = none) ∧
    replStep [(1, ⟨0, 3, ("abc").toList, 1, []⟩)] ([], [])
      (0, ⟨0, 3, ("xyz").toList, 0, []⟩) = ([], []) :=
  ⟨⟨by decide, by decide⟩,
    claim10_silent_skip.1 [(1, ⟨0, 3, ("abc").toList, 1, []⟩)] ([], [])
      (0, ⟨0, 3, ("xyz").toList, 0, []⟩) ⟨0, 3, ("abc").toList, 1, []⟩
      (by decide) (by decide)⟩

lemma searchKeyBrace_success (kw c : List Char) (st mend : Nat)
    (h : searchKeyBrace kw c = some (st, mend)) :
    st < mend ∧ mend ≤ c.length := by
  unfold searchKeyBrace at h
  obtain ⟨-, hm⟩ := searchAt_success _ c _ 0 st mend h
  cases hk : matchKeyBraceAt kw c st with
  | none => rw [hk] at hm; simp at hm
  | some v =>
    rw [hk] at hm
    simp at hm
    subst hm
    exact matchKeyBraceAt_bounds kw c st v hk

lemma extract_ja_section_bounds (c : List Char) (s e : Nat) (j : List Char)
    (h : extract_ja_section c = some (s, e, j)) : s < e ∧ e ≤ c.length := by
  unfold extract_ja_section at h
  cases hts : searchKeyBrace (("text").toList) c with
  | none => rw [hts] at h; simp at h
  | some v =>
    obtain ⟨text_start, tmend⟩ := v
    rw [hts] at h
    obtain ⟨htm1, htm2⟩ := searchKeyBrace_success _ c _ _ hts
    dsimp only at h
    by_cases hbal : find_matching_brace c (tmend - 1) = -1
    · rw [if_pos hbal] at h; simp at h
    · rw [if_neg hbal] at h
      obtain ⟨te, hte, hte1, hte2, -⟩ := find_matching_brace_success c (tmend - 1) hbal
      rw [hte] at h
      simp only [Int.toNat_natCast] at h
      have htslen : (listSlice c text_start te).length = te - text_start := by
        refine listSlice_length c text_start te (by omega) hte2
      cases hjs : searchKeyBrace (("ja").toList) (listSlice c text_start te) with
      | none => rw [hjs] at h; simp at h
      | some w =>
        obtain ⟨ja_start, jmend⟩ := w
        rw [hjs] at h
        obtain ⟨hjm1, hjm2⟩ := searchKeyBrace_success _ _ _ _ hjs
        dsimp only at h
        by_cases hjbal : find_matching_brace (listSlice c text_start te) (jmend - 1) = -1
        · rw [if_pos hjbal] at h; simp at h
        · rw [if_neg hjbal] at h
          obtain ⟨je, hje, hje1, hje2, -⟩ :=
            find_matching_brace_success (listSlice c text_start te) (jmend - 1) hjbal
          rw [hje] at h
          simp only [Int.toNat_natCast, Option.some.injEq, Prod.mk.injEq] at h
          obtain ⟨rfl, rfl, -⟩ := h
          rw [htslen] at hje2 hjm2
          omega

/-- Two blocks cover disjoint spans (symmetric form). -/
def BlockDisjW (a b : ASTBlock) : Prop :=
  a.end_ ≤ b.start ∨ b.end_ ≤ a.start

lemma dictInsert_inv (Q : ASTBlock → Prop) (k : Nat) (v : ASTBlock)
    (d : List (Nat × ASTBlock)) (hv : v.block_id = k ∧ Q v)
    (hkeys : d.Pairwise (fun p q => p.1 ≠ q.1))
    (hprop : ∀ p ∈ d, p.2.block_id = p.1 ∧ Q p.2) :
    (dictInsert k v d).Pairwise (fun p q => p.1 ≠ q.1) ∧
    ∀ p ∈ dictInsert k v d, p.2.block_id = p.1 ∧ Q p.2 := by
  unfold dictInsert
  split
  · constructor
    · have hkey : ∀ p : Nat × ASTBlock,
          (if p.1 == k then ((k, v) : Nat × ASTBlock) else p).1 = p.1 := by
        intro p
        split
        · rename_i hpk
          have hpk2 : p.1 = k := by simpa using hpk
          exact hpk2.symm
        · rfl
      refine List.pairwise_map.mpr (hkeys.imp_of_mem ?_)
      intro a b ha hb hne
      rw [hkey a, hkey b]
      exact hne
    · intro p hp
      obtain ⟨q, hq, hqe⟩ := List.mem_map.mp hp
      by_cases hqk : q.1 == k
      · rw [if_pos hqk] at hqe
        subst hqe
        exact hv
      · rw [if_neg (by simpa using hqk)] at hqe
        subst hqe
        exact hprop q hq
  · rename_i hnone
    constructor
    · refine List.pairwise_append.mpr ⟨hkeys, by simp, ?_⟩
      intro a ha b hb
      simp only [List.mem_singleton] at hb
      subst hb
      intro hak
      have hex : ∃ x ∈ d, (x.1 == k) = true := ⟨a, ha, by simpa using hak⟩
      exact hnone (List.any_eq_true.mpr hex)
    · intro p hp
      rcases List.mem_append.mp hp with hp | hp
      · exact hprop p hp
      · simp only [List.mem_singleton] at hp
        subst hp
        exact hv

lemma buildDict_fold_inv (Q : ASTBlock → Prop) :
    ∀ (bs : List ASTBlock) (d : List (Nat × ASTBlock)),
      (∀ b ∈ bs, Q b) →
      d.Pairwise (fun p q => p.1 ≠ q.1) →
      (∀ p ∈ d, p.2.block_id = p.1 ∧ Q p.2) →
      (bs.foldl (fun d b => dictInsert b.block_id b d) d).Pairwise
        (fun p q => p.1 ≠ q.1) ∧
      ∀ p ∈ bs.foldl (fun d b => dictInsert b.block_id b d) d,
        p.2.block_id = p.1 ∧ Q p.2 := by
  intro bs
  induction bs with
  | nil => intro d _ h1 h2; exact ⟨h1, h2⟩
  | cons b rest ih =>
    intro d hQ h1 h2
    simp only [List.foldl_cons]
    obtain ⟨h3, h4⟩ := dictInsert_inv Q b.block_id b d
      ⟨rfl, hQ b (List.mem_cons_self b rest)⟩ h1 h2
    exact ih _ (fun x hx => hQ x (List.mem_cons_of_mem b hx)) h3 h4

lemma buildDict_inv (Q : ASTBlock → Prop) (bs : List ASTBlock)
    (hQ : ∀ b ∈ bs, Q b) :
    (buildDict bs).Pairwise (fun p q => p.1 ≠ q.1) ∧
    ∀ p ∈ buildDict bs, p.2.block_id = p.1 ∧ Q p.2 :=
  buildDict_fold_inv Q bs [] hQ (by simp) (by simp)

lemma blockDisjW_symm : ∀ {a b : ASTBlock}, BlockDisjW a b → BlockDisjW b a := by
  intro a b h
  cases h with
  | inl h => exact Or.inr h
  | inr h => exact Or.inl h

lemma to_dict_entries (t : List Char) :
    (to_dictOf t).Pairwise (fun p q => BlockDisjW p.2 q.2) ∧
    ∀ p ∈ to_dictOf t, p.2.start < p.2.end_ ∧ p.2.end_ ≤ t.length ∧
      p.2.content.length = p.2.end_ - p.2.start := by
  obtain ⟨hkeys, hent⟩ :=
    buildDict_inv (fun b => b ∈ extract_blocks_to t) (extract_blocks_to t)
      (fun b hb => hb)
  have hpair : (extract_blocks_to t).Pairwise BlockDisjW :=
    (extract_blocks_to_wf t).2.imp (fun h => Or.inl h)
  have hforall :=
    hpair.forall (fun x y (h : BlockDisjW x y) => blockDisjW_symm h)
  constructor
  · refine hkeys.imp_of_mem ?_
    intro p q hp hq hne
    have hpm := hent p hp
    have hqm := hent q hq
    have hval : p.2 ≠ q.2 := by
      intro hcontra
      exact hne (by rw [← hpm.1, ← hqm.1, hcontra])
    exact hforall hpm.2 hqm.2 hval
  · intro p hp
    obtain ⟨-, hmem⟩ := hent p hp
    obtain ⟨-, h2, h3, h4⟩ := (extract_blocks_to_wf t).1 p.2 hmem
    refine ⟨h2, h3, ?_⟩
    rw [h4]
    exact listSlice_length t _ _ (by omega) h3

lemma dictInsertEdit_append (l : List Edit) (ed : Edit)
    (h : ∀ x ∈ l, ¬ x.s = ed.s) : dictInsertEdit l ed = l ++ [ed] := by
  unfold dictInsertEdit
  rw [if_neg]
  intro hany
  obtain ⟨x, hx, hbeq⟩ := List.any_eq_true.mp hany
  exact h x hx (by simpa using hbeq)

lemma computeRepl_fold_inv (fd : List (Nat × ASTBlock)) (L : Nat) :
    ∀ (entries : List (Nat × ASTBlock)) (acc : List Edit × List Nat),
      (∀ p ∈ entries, p.2.start < p.2.end_ ∧ p.2.end_ ≤ L ∧
        p.2.content.length = p.2.end_ - p.2.start) →
      entries.Pairwise (fun p q => BlockDisjW p.2 q.2) →
      (∀ ed ∈ acc.1, ed.s < ed.e ∧ ed.e ≤ L) →
      acc.1.Pairwise SpanDisj →
      (∀ ed ∈ acc.1, ∀ p ∈ entries, ed.e ≤ p.2.start ∨ p.2.end_ ≤ ed.s) →
      (∀ ed ∈ (entries.foldl (replStep fd) acc).1, ed.s < ed.e ∧ ed.e ≤ L) ∧
      (entries.foldl (replStep fd) acc).1.Pairwise SpanDisj := by
  intro entries
  induction entries with
  | nil => intro acc _ _ h3 h4 _; exact ⟨h3, h4⟩
  | cons p rest ih =>
    intro acc h1 h2 h3 h4 h5
    simp only [List.foldl_cons]
    obtain ⟨hp1, hp2, hp3⟩ := h1 p (List.mem_cons_self p rest)
    obtain ⟨hd1, hd2⟩ := List.pairwise_cons.mp h2
    have h1r : ∀ q ∈ rest, q.2.start < q.2.end_ ∧ q.2.end_ ≤ L ∧
        q.2.content.length = q.2.end_ - q.2.start :=
      fun q hq => h1 q (List.mem_cons_of_mem p hq)
    have h5r : ∀ ed ∈ acc.1, ∀ q ∈ rest, ed.e ≤ q.2.start ∨ q.2.end_ ≤ ed.s :=
      fun ed hed q hq => h5 ed hed q (List.mem_cons_of_mem p hq)
    cases hlk : lookupDict fd (p.1 + 1) with
    | none =>
      simp only [replStep, hlk]
      exact ih (acc.1, acc.2 ++ [p.1]) h1r hd2 h3 h4 h5r
    | some fb =>
      cases hen : extract_en_section fb.content with
      | none =>
        simp only [replStep, hlk, hen]
        exact ih acc h1r hd2 h3 h4 h5r
      | some en =>
        cases hja : extract_ja_section p.2.content with
        | none =>
          simp only [replStep, hlk, hen, hja]
          exact ih (acc.1, acc.2 ++ [p.1]) h1r hd2 h3 h4 h5r
        | some jap =>
          obtain ⟨js, je, jc⟩ := jap
          obtain ⟨hj1, hj2⟩ := extract_ja_section_bounds p.2.content js je jc hja
          simp only [replStep, hlk, hen, hja]
          rw [hp3] at hj2
          have hnew1 : p.2.start + js < p.2.start + je := by omega
          have hnew2 : p.2.start + je ≤ p.2.end_ := by omega
          have hdisjnew : ∀ x ∈ acc.1,
              SpanDisj x ⟨p.2.start + js, p.2.start + je, en⟩ := by
            intro x hx
            obtain ⟨hx1, -⟩ := h3 x hx
            rcases h5 x hx p (List.mem_cons_self p rest) with h | h
            · exact Or.inl (by simp only; omega)
            · exact Or.inr (by simp only; omega)
          have hne : ∀ x ∈ acc.1,
              ¬ x.s = (⟨p.2.start + js, p.2.start + je, en⟩ : Edit).s := by
            intro x hx
            obtain ⟨hx1, -⟩ := h3 x hx
            rcases h5 x hx p (List.mem_cons_self p rest) with h | h
            · simp only; omega
            · simp only; omega
          rw [dictInsertEdit_append acc.1 _ hne]
          refine ih (acc.1 ++ [⟨p.2.start + js, p.2.start + je, en⟩], acc.2)
            h1r hd2 ?_ ?_ ?_
          · intro ed hed
            rcases List.mem_append.mp hed with hed | hed
            · exact h3 ed hed
            · simp only [List.mem_singleton] at hed
              subst hed
              exact ⟨hnew1, by show p.2.start + je ≤ L; omega⟩
          · refine List.pairwise_append.mpr ⟨h4, by simp, ?_⟩
            intro a ha b hb
            simp only [List.mem_singleton] at hb
            subst hb
            exact hdisjnew a ha
          · intro ed hed q hq
            rcases List.mem_append.mp hed with hed | hed
            · exact h5r ed hed q hq
            · simp only [List.mem_singleton] at hed
              subst hed
              rcases hd1 q hq with h | h
              · exact Or.inl (by simp only; omega)
              · exact Or.inr (by simp only; omega)

lemma replacements_wf (t f : List Char) :
    (∀ ed ∈ replacementsOf t f, ed.s < ed.e ∧ ed.e ≤ t.length) ∧
    (replacementsOf t f).Pairwise SpanDisj := by
  obtain ⟨hdisj, hent⟩ := to_dict_entries t
  exact computeRepl_fold_inv (from_dictOf f) t.length (to_dictOf t) ([], [])
    hent hdisj (by simp) (by simp) (by simp)

/-- Claim C2: whenever `process_file` succeeds and produces an output buffer,
that buffer is exactly the direct reconstruction of the target input from the
computed replacement set — every character outside the correlated blocks'
`ja`-subsection spans is carried over unchanged, and each span is replaced by
the transformed `en` content recorded for it. -/
theorem claim2_output_frame (t f out : List Char)
    (h : (process_file t f).output = some out) :
    out = reconstruct t 0 ((sortEditsDesc (replacementsOf t f)).reverse) := by
  unfold process_file at h
  split at h
  · simp at h
  · split at h
    · simp at h
    · split at h
      · simp at h
      · split at h
        · simp at h
        · simp only [Option.some.injEq] at h
          obtain ⟨hb, hdisj⟩ := replacements_wf t f
          rw [← h]
          exact apply_edits_reconstruct_core t (replacementsOf t f) hdisj hb

set_option maxRecDepth 1000000 in
/-- Claim C2 witness: the correlator scenario file pair processes
successfully and its written output equals the direct reconstruction of the
target buffer. -/
theorem claim2_output_frame_witness :
    (process_file corrTarget corrSource).output =
      some (("astver 1. ast = \x7b block_00000 = \x7b text = \x7b ja = \x7b x \x7d \x7d \x7d block_00001 = \x7b text = \x7b ja = \x7b y \x7d \x7d \x7d block_00002 = \x7b text = \x7b ja = \x7b c \x7d \x7d \x7d \x7d").toList) ∧
    (("astver 1. ast = \x7b block_00000 = \x7b text = \x7b ja = \x7b x \x7d \x7d \x7d block_00001 = \x7b text = \x7b ja = \x7b y \x7d \x7d \x7d block_00002 = \x7b text = \x7b ja = \x7b c \x7d \x7d \x7d \x7d").toList) =
      reconstruct corrTarget 0
        ((sortEditsDesc (replacementsOf corrTarget corrSource)).reverse) := by
  have h : (process_file corrTarget corrSource).output =
      some (("astver 1. ast = \x7b block_00000 = \x7b text = \x7b ja = \x7b x \x7d \x7d \x7d block_00001 = \x7b text = \x7b ja = \x7b y \x7d \x7d \x7d block_00002 = \x7b text = \x7b ja = \x7b c \x7d \x7d \x7d \x7d").toList) := by
    decide
  exact ⟨h, claim2_output_frame corrTarget corrSource _ h⟩
